import Mathlib

/-!
Verification of the retrieval pipeline of a Slack knowledge-capture bot
(`src/utils/db.js`): chunking, idempotent chunk storage, similarity search
with per-thread collapsing, and token-budgeted context assembly.

The JavaScript source is shallowly embedded: strings are `String`,
JS numbers that hold token counts or indices are `Nat`, timestamps and
similarity scores are `Rat`, SQL `NULL`able columns are `Option`,
and the `messages` table is a `List Row`.  External collaborators
(the OpenAI embedding endpoint, the pgvector `<=>` distance operator,
and the Notion-link summarizer used inside `getRelevantContext`) are
universally quantified function parameters: every theorem below holds
for an arbitrary choice of these functions.
-/

set_option maxRecDepth 20000

namespace SlackDB

/-- `estimateTokens` from db.js: `Math.ceil(text.length / 4)`.
`(n + 3) / 4` is exactly `ceil(n / 4)` on naturals. -/
def estimateTokens (text : String) : Nat :=
  (text.length + 3) / 4

/-- A sentence-terminating character, from the regex `[.!?]+` in `splitIntoChunks`. -/
def isSentenceEnd (c : Char) : Bool :=
  c == '.' || c == '!' || c == '?'

/-- `text.split(/[.!?]+/)`: split on maximal runs of sentence terminators,
keeping the (possibly empty) pieces before the first run and after the last.
The accumulator is `some acc` while inside a piece (characters collected in
reverse) and `none` while inside a terminator run that already emitted the
piece before it. -/
def splitSentencesAux : List Char → Option (List Char) → List String
  | [], none => [""]
  | [], some acc => [String.mk acc.reverse]
  | c :: cs, none =>
      if isSentenceEnd c then splitSentencesAux cs none
      else splitSentencesAux cs (some [c])
  | c :: cs, some acc =>
      if isSentenceEnd c then String.mk acc.reverse :: splitSentencesAux cs none
      else splitSentencesAux cs (some (c :: acc))

/-- The sentence list produced by `text.split(/[.!?]+/)`. -/
def splitSentences (text : String) : List String :=
  splitSentencesAux text.data (some [])

/-- JS `String.prototype.trim`: drop whitespace from both ends. -/
def jsTrim (s : String) : String :=
  String.mk (((s.data.dropWhile Char.isWhitespace).reverse.dropWhile Char.isWhitespace).reverse)

/-- One iteration of the sentence loop in `splitIntoChunks`: the state is
`(chunks, currentChunk)`.  If `estimateTokens(currentChunk + sentence)`
exceeds the budget the buffer is flushed (trimmed) and the sentence starts a
new buffer; otherwise the sentence plus a `". "` separator is appended. -/
def chunkStep (maxTokens : Nat) (st : List String × String) (sentence : String) :
    List String × String :=
  if maxTokens < estimateTokens (st.2 ++ sentence) then
    (st.1 ++ [jsTrim st.2], sentence)
  else
    (st.1, st.2 ++ sentence ++ ". ")

/-- `splitIntoChunks(text, maxTokens)` from db.js.  `none` models a
`null`/`undefined` argument; the guard `if (!text)` is also true for the
empty string, hence the `isEmpty` test.  The final buffer is pushed only if
non-empty (`if (currentChunk)`). -/
def splitIntoChunks (text : Option String) (maxTokens : Nat) : List String :=
  match text with
  | none => []
  | some t =>
    if t.isEmpty then []
    else
      let st := (splitSentences t).foldl (chunkStep maxTokens) ([], "")
      if st.2.isEmpty then st.1 else st.1 ++ [jsTrim st.2]

/-- Largest estimated token count of any sentence in a sentence list
(`0` when there are none). -/
def maxSentenceTokens (sentences : List String) : Nat :=
  sentences.foldr (fun s m => max (estimateTokens s) m) 0

example : splitSentences "A. B. C." = ["A", " B", " C", ""] := by decide
example : splitSentences ".." = ["", ""] := by decide
example : splitIntoChunks (some "A. B. C.") 1 = ["A.", "B C."] := by decide
example : splitIntoChunks (some "aaaaa") 1 = ["", "aaaaa"] := by decide
example : splitIntoChunks (some "..") 0 = ["."] := by decide
example : splitIntoChunks (some "") 1000 = [] := by decide
example : estimateTokens "aaaaa" = 2 := by decide

/-! ## The `messages` table -/

/-- The `metadata` JSONB document.  The source only ever writes and reads the
`total_chunks` key (`chunkAndStoreMessage` stores `{ total_chunks: chunks.length }`). -/
structure Metadata where
  total_chunks : Nat
deriving DecidableEq, Repr

/-- One row of the `messages` table created in `createMessagesTable`
(the surrogate `id` column is not modelled; no claim mentions it).
Timestamps are rationals (epoch milliseconds), embeddings are rational
vectors fed to an abstract distance function. -/
structure Row where
  channel_name : String
  thread_ts : String
  content : String
  user_name : Option String
  user_title : Option String
  chunk_index : Nat
  metadata : Metadata
  embedding : List Rat
  created_at : Rat
deriving DecidableEq, Repr

/-- `generateEmbedding` calls the external OpenAI embedding endpoint; the
call (together with its over-8192-token word-truncation preprocessing, which
no claim refers to) is modelled by the abstract function `embedFn`. -/
def generateEmbedding (embedFn : String → List Rat) (text : String) : List Rat :=
  embedFn text

/-- The row-lookup predicate of `storeMessage`:
`WHERE channel_name = $1 AND thread_ts = $2 AND chunk_index = $3`. -/
def matchKey (channelName threadTs : String) (chunkIndex : Nat) (r : Row) : Bool :=
  r.channel_name == channelName && (r.thread_ts == threadTs && r.chunk_index == chunkIndex)

/-- The `UPDATE ... SET content = $4, user_name = $5, user_title = $6,
embedding = $7, metadata = $8, created_at = $9` of `storeMessage`: every
column except the key triple (and `id`) is overwritten. -/
def updateRow (content : String) (userName userTitle : Option String)
    (metadata : Metadata) (embedding : List Rat) (createdAt : Rat) (r : Row) : Row :=
  ⟨r.channel_name, r.thread_ts, content, userName, userTitle, r.chunk_index,
    metadata, embedding, createdAt⟩

/-- `storeMessage` from db.js: embed the content, then upsert by
`(channel_name, thread_ts, chunk_index)` — `UPDATE` every matching row in
place if one exists, otherwise `INSERT` a fresh row.  `messageTs` is the
optional Slack origin timestamp (`parseFloat(messageTs) * 1000`); when
absent the current time `now` is used. -/
def storeMessage (embedFn : String → List Rat) (now : Rat) (table : List Row)
    (channelName threadTs content : String) (userName userTitle : Option String)
    (chunkIndex : Nat) (metadata : Metadata) (messageTs : Option Rat) : List Row :=
  let embedding := generateEmbedding embedFn content
  let messageDate := match messageTs with
    | some ts => ts * 1000
    | none => now
  if table.any (matchKey channelName threadTs chunkIndex) then
    table.map (fun r =>
      if matchKey channelName threadTs chunkIndex r then
        updateRow content userName userTitle metadata embedding messageDate r
      else r)
  else
    table ++ [⟨channelName, threadTs, content, userName, userTitle, chunkIndex,
      metadata, embedding, messageDate⟩]

/-- The body of the `for (const chunk of chunks)` loop in
`chunkAndStoreMessage`: each chunk is stored with
`chunkIndex = chunks.indexOf(chunk)` (note: `indexOf`, not the loop
position) and `metadata = { total_chunks: chunks.length }`. -/
def storeChunkStep (embedFn : String → List Rat) (now : Rat)
    (channelName threadTs : String) (userName userTitle : Option String)
    (messageTs : Option Rat) (chunks : List String)
    (table : List Row) (chunk : String) : List Row :=
  storeMessage embedFn now table channelName threadTs chunk userName userTitle
    (chunks.indexOf chunk) ⟨chunks.length⟩ messageTs

/-- `chunkAndStoreMessage` ("storeDocument" in the spec): split the content
with a fixed budget of 1000 tokens per chunk and store each chunk in order. -/
def chunkAndStoreMessage (embedFn : String → List Rat) (now : Rat) (table : List Row)
    (channelName threadTs : String) (content : Option String)
    (userName userTitle : Option String) (messageTs : Option Rat) : List Row :=
  (splitIntoChunks content 1000).foldl
    (storeChunkStep embedFn now channelName threadTs userName userTitle messageTs
      (splitIntoChunks content 1000)) table

/-! ## Similarity search -/

/-- The optional filters of `searchSimilarMessages`.  Dates are epoch
milliseconds.  A JS falsy filter value (absent, or the empty string) leaves
the corresponding `WHERE` conjunct out. -/
structure Filters where
  channel : Option String
  user : Option String
  minDate : Option Rat
  maxDate : Option Rat
deriving DecidableEq, Repr

/-- The `{}` default for `filters`. -/
def emptyFilters : Filters := ⟨none, none, none, none⟩

/-- Cosine similarity as computed in the SQL query:
`1 - (embedding <=> queryVector)`.  The pgvector `<=>` operator is the
abstract distance function `dist`. -/
def similarity (dist : List Rat → List Rat → Rat) (queryVec : List Rat) (r : Row) : Rat :=
  1 - dist r.embedding queryVec

/-- The dynamically built `WHERE` conjuncts of `searchSimilarMessages`
(equality on channel and user, inclusive bounds on `created_at`), each
guarded by the JS truthiness check `if (channel)` etc. -/
def matchesFilters (filters : Filters) (r : Row) : Bool :=
  (match filters.channel with
    | none => true
    | some c => if c.isEmpty then true else r.channel_name == c) &&
  ((match filters.user with
    | none => true
    | some u => if u.isEmpty then true else r.user_name == some u) &&
  ((match filters.minDate with
    | none => true
    | some d => decide (d ≤ r.created_at)) &&
  (match filters.maxDate with
    | none => true
    | some d => decide (r.created_at ≤ d))))

/-- Row eligibility in the CTE: the filter conjuncts
`AND 1 - (embedding <=> $v) > minSimilarity` (strict). -/
def eligibleB (dist : List Rat → List Rat → Rat) (queryVec : List Rat)
    (minSimilarity : Rat) (filters : Filters) (r : Row) : Bool :=
  matchesFilters filters r && decide (minSimilarity < similarity dist queryVec r)

/-- The rows of the table that satisfy the `WHERE` clause of
`searchSimilarMessages` for a given query. -/
def eligibleRows (embedFn : String → List Rat) (dist : List Rat → List Rat → Rat)
    (table : List Row) (queryText : String) (minSimilarity : Rat)
    (filters : Filters) : List Row :=
  table.filter (eligibleB dist (generateEmbedding embedFn queryText) minSimilarity filters)

/-- The distinct `thread_ts` values of a row list, in order of first
appearance (the partition keys of `PARTITION BY thread_ts`). -/
def threadKeys : List Row → List String
  | [] => []
  | r :: rs => r.thread_ts :: (threadKeys rs).filter (fun t => t != r.thread_ts)

/-- Keep the better of two rows by similarity; on a tie the first is kept. -/
def betterRow (dist : List Rat → List Rat → Rat) (queryVec : List Rat)
    (best r : Row) : Row :=
  if similarity dist queryVec best < similarity dist queryVec r then r else best

/-- The first row of maximal similarity among `r :: l`. -/
def bestRow (dist : List Rat → List Rat → Rat) (queryVec : List Rat)
    (r : Row) (l : List Row) : Row :=
  l.foldl (betterRow dist queryVec) r

/-- The unique `rank = 1` row of a partition: among the rows of `l` whose
`thread_ts` equals `t`, the one of maximal similarity (`ROW_NUMBER() OVER
(PARTITION BY thread_ts ORDER BY similarity DESC)`; ties are broken
deterministically towards the earlier row in this model, matching the
arbitrary tie-break of `ROW_NUMBER`). -/
def bestRowForThread (dist : List Rat → List Rat → Rat) (queryVec : List Rat)
    (t : String) (l : List Row) : Option Row :=
  match l.filter (fun r => r.thread_ts == t) with
  | [] => none
  | r :: rs => some (bestRow dist queryVec r rs)

/-- The `WHERE rank = 1` result set: one best row per distinct thread. -/
def collapseByThread (dist : List Rat → List Rat → Rat) (queryVec : List Rat)
    (l : List Row) : List Row :=
  (threadKeys l).filterMap (fun t => bestRowForThread dist queryVec t l)

/-- Stable insertion into a list ordered by the strict precedence test `lt`:
`m` goes after every element that strictly precedes it and before the rest. -/
def insertBy (lt : α → α → Bool) (m : α) : List α → List α
  | [] => [m]
  | x :: xs => if lt x m then x :: insertBy lt m xs else m :: x :: xs

/-- Stable insertion sort by the strict precedence test `lt`. -/
def sortBy (lt : α → α → Bool) : List α → List α
  | [] => []
  | x :: xs => insertBy lt x (sortBy lt xs)

/-- `ORDER BY similarity DESC`: `a` strictly precedes `b` when its
similarity is larger. -/
def simLt (dist : List Rat → List Rat → Rat) (queryVec : List Rat) (a b : Row) : Bool :=
  decide (similarity dist queryVec b < similarity dist queryVec a)

/-- A row of the result set of `searchSimilarMessages`.  The `SELECT` list
of the CTE names `channel_name, thread_ts, content, user_name, user_title,
chunk_index, metadata` and the computed `similarity` — it does **not**
include `created_at`, so reading `row.created_at` on a result object yields
`undefined`; that absent property is modelled as an `Option Rat` that the
projection always sets to `none`.  (The `rank` column, constantly 1 in the
result, is not modelled.) -/
structure SearchRow where
  channel_name : String
  thread_ts : String
  content : String
  user_name : Option String
  user_title : Option String
  chunk_index : Nat
  metadata : Metadata
  similarity : Rat
  created_at : Option Rat
deriving DecidableEq, Repr

/-- Projection of a table row to a result row of `searchSimilarMessages`. -/
def projectRow (dist : List Rat → List Rat → Rat) (queryVec : List Rat) (r : Row) : SearchRow :=
  ⟨r.channel_name, r.thread_ts, r.content, r.user_name, r.user_title,
    r.chunk_index, r.metadata, similarity dist queryVec r, none⟩

/-- `searchSimilarMessages(queryText, limit, minSimilarity, filters)` from
db.js: embed the query, keep the rows passing the filters with similarity
strictly above `minSimilarity`, keep the single best row per `thread_ts`,
order by similarity descending, and return the first `limit` rows projected
onto the `SELECT` list. -/
def searchSimilarMessages (embedFn : String → List Rat) (dist : List Rat → List Rat → Rat)
    (table : List Row) (queryText : String) (limit : Nat) (minSimilarity : Rat)
    (filters : Filters) : List SearchRow :=
  ((sortBy (simLt dist (generateEmbedding embedFn queryText))
      (collapseByThread dist (generateEmbedding embedFn queryText)
        (eligibleRows embedFn dist table queryText minSimilarity filters))).take limit).map
    (projectRow dist (generateEmbedding embedFn queryText))

/-! ## Context assembly -/

/-- JS template-literal rendering of a possibly-`null` column. -/
def renderNullable : Option String → String
  | some s => s
  | none => "null"

/-- JS `thread_ts.replace('.', '')`: `String.prototype.replace` with a
string pattern replaces only the first occurrence. -/
def removeFirstDotAux : List Char → List Char
  | [] => []
  | c :: cs => if c == '.' then cs else c :: removeFirstDotAux cs

/-- The Slack permalink fragment `p${thread_ts.replace('.', '')}` body. -/
def removeFirstDot (s : String) : String :=
  String.mk (removeFirstDotAux s.data)

/-- `Math.floor((now - messageDate) / (1000*60*60*24))` rendered into the
template literal.  When the row has no `created_at` (the projection above),
`new Date(undefined)` is invalid, the arithmetic yields `NaN`, and the
template renders the string `"NaN"`. -/
def daysSinceStr (now : Rat) : Option Rat → String
  | none => "NaN"
  | some ts => toString (Rat.floor ((now - ts) / 86400000))

/-- The provenance-annotated line appended to the context for one included
message, with `messageContent` already run through Notion-link expansion. -/
def formatMessage (now : Rat) (slackBaseUri : String) (m : SearchRow)
    (messageContent : String) : String :=
  "Message from " ++ renderNullable m.user_name ++ " (" ++ renderNullable m.user_title ++ ") "
    ++ daysSinceStr now m.created_at ++ " days ago: " ++ messageContent
    ++ "\nLink: " ++ slackBaseUri ++ "/" ++ m.channel_name ++ "/p"
    ++ removeFirstDot m.thread_ts ++ "\n\n"

/-- The comparator `(a, b) => new Date(b.created_at) - new Date(a.created_at)`
as a strict precedence test, under the ECMAScript `SortCompare` rule that a
`NaN` comparator result counts as `0`: `a` strictly precedes `b` only when
both timestamps exist and `b`'s is smaller.  Search results always carry
`created_at = none`, so on them this test is constantly `false` and the
stable sort leaves the similarity order untouched. -/
def recencyLt (a b : SearchRow) : Bool :=
  match a.created_at, b.created_at with
  | some ca, some cb => decide (cb < ca)
  | _, _ => false

/-- The accumulation loop of `getRelevantContext`: walk the sorted messages,
expand Notion links (`processNotion` models the external `processLink`-based
rewriting of the message content), and append the formatted line unless the
running token total would exceed the budget — in which case the loop
`break`s, skipping the current and all later messages. -/
def contextLoop (processNotion : String → String) (now : Rat) (slackBaseUri : String)
    (maxTokens : Nat) : List SearchRow → Nat → String → String
  | [], _, context => context
  | m :: rest, currentTokens, context =>
      let messageContent := processNotion m.content
      let messageTokens := estimateTokens messageContent
      if maxTokens < currentTokens + messageTokens then context
      else contextLoop processNotion now slackBaseUri maxTokens rest
        (currentTokens + messageTokens) (context ++ formatMessage now slackBaseUri m messageContent)

/-- The messages actually included by `contextLoop`, in output order. -/
def includedLoop (processNotion : String → String) (maxTokens : Nat) :
    List SearchRow → Nat → List SearchRow
  | [], _ => []
  | m :: rest, currentTokens =>
      let messageTokens := estimateTokens (processNotion m.content)
      if maxTokens < currentTokens + messageTokens then []
      else m :: includedLoop processNotion maxTokens rest (currentTokens + messageTokens)

/-- `getRelevantContext(query, maxTokens)` from db.js: fetch the top 10
similar messages above similarity 0.7, sort them by the (absent) creation
timestamp, and assemble the token-budgeted context string. -/
def getRelevantContext (embedFn : String → List Rat) (dist : List Rat → List Rat → Rat)
    (processNotion : String → String) (now : Rat) (slackBaseUri : String)
    (table : List Row) (query : String) (maxTokens : Nat) : String :=
  contextLoop processNotion now slackBaseUri maxTokens
    (sortBy recencyLt (searchSimilarMessages embedFn dist table query 10 (7 / 10) emptyFilters))
    0 ""

/-- The sequence of messages whose formatted lines make up
`getRelevantContext`'s output, in output order. -/
def includedMessages (embedFn : String → List Rat) (dist : List Rat → List Rat → Rat)
    (processNotion : String → String) (table : List Row) (query : String)
    (maxTokens : Nat) : List SearchRow :=
  includedLoop processNotion maxTokens
    (sortBy recencyLt (searchSimilarMessages embedFn dist table query 10 (7 / 10) emptyFilters))
    0

/-! ## Concrete instances used by witnesses and counterexamples -/

/-- A concrete embedding function for closed evaluations. -/
def cEmbed : String → List Rat := fun _ => []

/-- A concrete distance function for closed evaluations: the distance is the
first coordinate of the stored embedding (so the stored vector directly
encodes the row's distance to any query). -/
def cDist : List Rat → List Rat → Rat := fun e _ => e.headD 1

/-- An older row (epoch 0) with similarity 9/10 under `cDist`. -/
def rowX : Row :=
  ⟨"eng", "1.1", "x", some "alice", some "dev", 0, ⟨1⟩, [1 / 10], 0⟩

/-- A newer row (epoch 100) with similarity 8/10 under `cDist`. -/
def rowY : Row :=
  ⟨"eng", "2.2", "y", some "bob", some "pm", 0, ⟨1⟩, [1 / 5], 100⟩

example :
    searchSimilarMessages cEmbed cDist [rowX, rowY] "q" 10 (7 / 10) emptyFilters
      = [projectRow cDist [] rowX, projectRow cDist [] rowY] := by
  with_unfolding_all decide

example :
    (includedMessages cEmbed cDist id [rowX, rowY] "q" 4000).map SearchRow.content
      = ["x", "y"] := by with_unfolding_all decide

example :
    getRelevantContext cEmbed cDist id 0 "https://slack.example" [rowX] "q" 1
      = "Message from alice (dev) NaN days ago: x\nLink: https://slack.example/eng/p11\n\n" := by
  with_unfolding_all decide

/-! ## Symbolic evaluation of the chunker on a large document

`chunkAndStoreMessage` hard-codes a 1000-token budget, so any document
whose chunking misbehaves necessarily involves strings of several thousand
characters; these are far too large for kernel evaluation, so the chunker
is evaluated on them by rewriting, using `List.replicate`. -/

/-- `n` copies of the letter `a`. -/
def aChars (n : Nat) : List Char := List.replicate n 'a'

/-- A sentence of 2001 characters: one of them fits in a 1000-token chunk
(501 estimated tokens), but a buffer holding one cannot absorb another. -/
def c6Sentence : String := String.mk (aChars 2001)

/-- A document that `splitIntoChunks _ 1000` cuts into three chunks, the
last two of which are the identical string `c6Sentence`. -/
def c6Text : String := c6Sentence ++ ". " ++ c6Sentence ++ ". " ++ c6Sentence

/-- The second and third sentence of `c6Text` as produced by the split:
the space after the period survives in the sentence. -/
def c6Space : String := String.mk (' ' :: aChars 2001)

/-- The first chunk flushed while chunking `c6Text`: the first sentence with
its re-appended period (the trailing space is trimmed). -/
def c6Chunk : String := String.mk (aChars 2001 ++ ['.'])

theorem aChars_succ (n : Nat) : aChars (n + 1) = 'a' :: aChars n := by
  simp [aChars, List.replicate_succ]

theorem splitSentencesAux_some_cons (c : Char) (cs : List Char) (acc : List Char) :
    splitSentencesAux (c :: cs) (some acc)
      = if isSentenceEnd c then String.mk acc.reverse :: splitSentencesAux cs none
        else splitSentencesAux cs (some (c :: acc)) := rfl

theorem splitSentencesAux_none_cons (c : Char) (cs : List Char) :
    splitSentencesAux (c :: cs) none
      = if isSentenceEnd c then splitSentencesAux cs none
        else splitSentencesAux cs (some [c]) := rfl

theorem splitSentencesAux_aChars (n : Nat) :
    ∀ (acc l : List Char),
      splitSentencesAux (aChars n ++ l) (some acc)
        = splitSentencesAux l (some (aChars n ++ acc)) := by
  induction n with
  | zero => intro acc l; simp [aChars]
  | succ k ih =>
      intro acc l
      have ha : isSentenceEnd 'a' = false := by decide
      have hlist : aChars k ++ 'a' :: acc = 'a' :: (aChars k ++ acc) := by
        have h1 : aChars k ++ 'a' :: acc = (aChars k ++ ['a']) ++ acc := by simp
        rw [h1, aChars, ← List.replicate_succ', ← aChars, aChars_succ, List.cons_append]
        rfl
      rw [aChars_succ, List.cons_append, splitSentencesAux_some_cons, ha,
        List.cons_append]
      simp only [Bool.false_eq_true, if_false]
      rw [ih ('a' :: acc) l, hlist]

theorem splitSentencesAux_aChars_end (n : Nat) (acc : List Char) :
    splitSentencesAux (aChars n) (some acc)
      = [String.mk (aChars n ++ acc).reverse] := by
  have h := splitSentencesAux_aChars n acc []
  rw [List.append_nil] at h
  rw [h, splitSentencesAux]

theorem c6Text_data :
    c6Text.data
      = aChars 2001 ++ ('.' :: ' ' :: (aChars 2001 ++ ('.' :: ' ' :: aChars 2001))) := by
  simp [c6Text, c6Sentence, String.data_append]

theorem splitSentences_c6Text :
    splitSentences c6Text = [c6Sentence, c6Space, c6Space] := by
  have hdot : isSentenceEnd '.' = true := by decide
  have hsp : isSentenceEnd ' ' = false := by decide
  rw [splitSentences, c6Text_data, splitSentencesAux_aChars, List.append_nil,
    splitSentencesAux_some_cons, hdot, if_pos rfl, splitSentencesAux_none_cons, hsp]
  simp only [Bool.false_eq_true, if_false]
  rw [splitSentencesAux_aChars, splitSentencesAux_some_cons, hdot, if_pos rfl,
    splitSentencesAux_none_cons, hsp]
  simp only [Bool.false_eq_true, if_false]
  rw [splitSentencesAux_aChars_end]
  simp [-List.reduceReplicate, c6Sentence, c6Space, aChars, List.reverse_append]

theorem string_eq_of_data {a b : String} (h : a.data = b.data) : a = b := by
  cases a
  cases b
  exact congrArg String.mk h

theorem aChars_length (n : Nat) : (aChars n).length = n := by
  simp [-List.reduceReplicate, aChars]

theorem aChars_reverse (n : Nat) : (aChars n).reverse = aChars n := by
  simp [-List.reduceReplicate, aChars]

theorem aChars_ne_nil (n : Nat) (hn : n ≠ 0) : aChars n ≠ [] := by
  cases n with
  | zero => exact absurd rfl hn
  | succ k => rw [aChars_succ]; exact List.cons_ne_nil _ _

theorem c6Text_isEmpty : c6Text.isEmpty = false := by
  rw [Bool.eq_false_iff]
  intro h
  have h2 : c6Text.data = [] := by rw [(String.isEmpty_iff _).mp h]
  rw [c6Text_data] at h2
  exact aChars_ne_nil 2001 (by norm_num) (List.append_eq_nil.mp h2).1

theorem c6Space_isEmpty : c6Space.isEmpty = false := by
  rw [Bool.eq_false_iff]
  intro h
  have h2 : c6Space.data = [] := by rw [(String.isEmpty_iff _).mp h]
  exact absurd h2 (List.cons_ne_nil _ _)

theorem c6Sentence_length : c6Sentence.length = 2001 := by
  rw [c6Sentence, String.length_mk, aChars_length]

theorem c6Space_length : c6Space.length = 2002 := by
  rw [c6Space, String.length_mk, List.length_cons, aChars_length]

theorem dropWhile_ws_aChars_append (n : Nat) (hn : n ≠ 0) (l : List Char) :
    (aChars n ++ l).dropWhile Char.isWhitespace = aChars n ++ l := by
  cases n with
  | zero => exact absurd rfl hn
  | succ k =>
      have hwa : Char.isWhitespace 'a' = false := by decide
      rw [aChars_succ, List.cons_append, List.dropWhile_cons, hwa]
      simp

theorem dropWhile_ws_aChars (n : Nat) (hn : n ≠ 0) :
    (aChars n).dropWhile Char.isWhitespace = aChars n := by
  have h := dropWhile_ws_aChars_append n hn []
  rwa [List.append_nil] at h

theorem aChars_append_reverse (n : Nat) (l : List Char) :
    (aChars n ++ l).reverse = l.reverse ++ aChars n := by
  rw [List.reverse_append, aChars_reverse]

theorem jsTrim_aChars_dot_space (n : Nat) (hn : n ≠ 0) :
    jsTrim (String.mk (aChars n ++ ['.', ' '])) = String.mk (aChars n ++ ['.']) := by
  have hwsp : Char.isWhitespace ' ' = true := by decide
  have hwd : Char.isWhitespace '.' = false := by decide
  rw [jsTrim]
  show String.mk ((((aChars n ++ ['.', ' ']).dropWhile Char.isWhitespace).reverse.dropWhile
    Char.isWhitespace).reverse) = _
  rw [dropWhile_ws_aChars_append n hn]
  have h2 : (aChars n ++ ['.', ' ']).reverse = ' ' :: '.' :: aChars n := by
    rw [aChars_append_reverse]
    rfl
  rw [h2, List.dropWhile_cons, hwsp, if_pos rfl, List.dropWhile_cons, hwd,
    if_neg Bool.false_ne_true, List.reverse_cons, aChars_reverse]

theorem jsTrim_space_aChars (n : Nat) (hn : n ≠ 0) :
    jsTrim (String.mk (' ' :: aChars n)) = String.mk (aChars n) := by
  have hwsp : Char.isWhitespace ' ' = true := by decide
  rw [jsTrim]
  show String.mk ((((' ' :: aChars n).dropWhile Char.isWhitespace).reverse.dropWhile
    Char.isWhitespace).reverse) = _
  rw [List.dropWhile_cons, hwsp, if_pos rfl, dropWhile_ws_aChars n hn, aChars_reverse,
    dropWhile_ws_aChars n hn, aChars_reverse]

theorem estimateTokens_def (s : String) : estimateTokens s = (s.length + 3) / 4 := rfl

theorem splitIntoChunks_some (t : String) (maxTokens : Nat) :
    splitIntoChunks (some t) maxTokens
      = (if t.isEmpty then []
         else
           if ((splitSentences t).foldl (chunkStep maxTokens) ([], "")).2.isEmpty
           then ((splitSentences t).foldl (chunkStep maxTokens) ([], "")).1
           else ((splitSentences t).foldl (chunkStep maxTokens) ([], "")).1
             ++ [jsTrim ((splitSentences t).foldl (chunkStep maxTokens) ([], "")).2]) := rfl

theorem splitIntoChunks_c6Text :
    splitIntoChunks (some c6Text) 1000 = [c6Chunk, c6Sentence, c6Sentence] := by
  have h2001 : (2001 : Nat) ≠ 0 := by norm_num
  have hb1 : "" ++ (c6Sentence ++ ". ") = String.mk (aChars 2001 ++ ['.', ' ']) := by
    apply string_eq_of_data
    rw [String.data_append, String.data_append]
    rfl
  have hbl1 : ("" ++ (c6Sentence ++ ". ")).length = 2003 := by
    rw [hb1, String.length_mk, List.length_append, aChars_length]
    rfl
  have hs1 : chunkStep 1000 ([], "") c6Sentence = ([], "" ++ (c6Sentence ++ ". ")) := by
    unfold chunkStep
    have hc : ¬ 1000 < estimateTokens ("" ++ c6Sentence) := by
      have hl : ("" ++ c6Sentence).length = 2001 := by
        rw [String.length_append, c6Sentence_length]
        rfl
      rw [estimateTokens_def, hl]
      norm_num
    rw [if_neg hc]
    rfl
  have hs2 : chunkStep 1000 ([], "" ++ (c6Sentence ++ ". ")) c6Space
      = ([jsTrim ("" ++ (c6Sentence ++ ". "))], c6Space) := by
    unfold chunkStep
    have hc : 1000 < estimateTokens (("" ++ (c6Sentence ++ ". ")) ++ c6Space) := by
      have hl : (("" ++ (c6Sentence ++ ". ")) ++ c6Space).length = 4005 := by
        rw [String.length_append, hbl1, c6Space_length]
      rw [estimateTokens_def, hl]
      norm_num
    rw [if_pos hc]
    rfl
  have htrim1 : jsTrim ("" ++ (c6Sentence ++ ". ")) = c6Chunk := by
    rw [hb1, jsTrim_aChars_dot_space 2001 h2001, c6Chunk]
  have hs3 : chunkStep 1000 ([c6Chunk], c6Space) c6Space
      = ([c6Chunk, jsTrim c6Space], c6Space) := by
    unfold chunkStep
    have hc : 1000 < estimateTokens (c6Space ++ c6Space) := by
      have hl : (c6Space ++ c6Space).length = 4004 := by
        rw [String.length_append, c6Space_length]
      rw [estimateTokens_def, hl]
      norm_num
    rw [if_pos hc]
    rfl
  have htrim2 : jsTrim c6Space = c6Sentence := by
    rw [c6Space, jsTrim_space_aChars 2001 h2001, c6Sentence]
  rw [splitIntoChunks_some, c6Text_isEmpty, if_neg Bool.false_ne_true, splitSentences_c6Text,
    List.foldl_cons, hs1, List.foldl_cons, hs2, htrim1, List.foldl_cons, hs3, List.foldl_nil]
  show (if c6Space.isEmpty then [c6Chunk, jsTrim c6Space]
        else [c6Chunk, jsTrim c6Space] ++ [jsTrim c6Space]) = [c6Chunk, c6Sentence, c6Sentence]
  rw [c6Space_isEmpty, if_neg Bool.false_ne_true, htrim2]
  rfl

theorem c6Chunk_length : c6Chunk.length = 2002 := by
  rw [c6Chunk, String.length_mk, List.length_append, aChars_length]
  rfl

theorem c6Chunk_ne_sentence : c6Chunk ≠ c6Sentence := by
  intro h
  have h2 := congrArg String.length h
  rw [c6Chunk_length, c6Sentence_length] at h2
  norm_num at h2

theorem c6_indexOf_chunk : [c6Chunk, c6Sentence, c6Sentence].indexOf c6Chunk = 0 := by
  simp [List.indexOf_cons]

theorem c6_indexOf_sentence : [c6Chunk, c6Sentence, c6Sentence].indexOf c6Sentence = 1 := by
  have hne : (c6Chunk == c6Sentence) = false := beq_eq_false_iff_ne.mpr c6Chunk_ne_sentence
  simp [List.indexOf_cons, hne]

theorem chunkAndStoreMessage_c6_table :
    chunkAndStoreMessage cEmbed 0 [] "c" "t" (some c6Text) none none none
      = [⟨"c", "t", c6Chunk, none, none, 0, ⟨3⟩, [], 0⟩,
         ⟨"c", "t", c6Sentence, none, none, 1, ⟨3⟩, [], 0⟩] := by
  unfold chunkAndStoreMessage
  rw [splitIntoChunks_c6Text, List.foldl_cons, List.foldl_cons, List.foldl_cons,
    List.foldl_nil]
  simp only [storeChunkStep, c6_indexOf_chunk, c6_indexOf_sentence]
  simp [storeMessage, generateEmbedding, cEmbed, matchKey, updateRow]

/-! ## Lemmas: stable insertion sort -/

theorem insertBy_perm (lt : α → α → Bool) (m : α) (l : List α) :
    (insertBy lt m l).Perm (m :: l) := by
  induction l with
  | nil => exact List.Perm.refl _
  | cons x xs ih =>
      rw [insertBy]
      split
      · exact (ih.cons x).trans (List.Perm.swap m x xs)
      · exact List.Perm.refl _

theorem sortBy_perm (lt : α → α → Bool) (l : List α) : (sortBy lt l).Perm l := by
  induction l with
  | nil => exact List.Perm.refl _
  | cons x xs ih =>
      rw [sortBy]
      exact (insertBy_perm lt x (sortBy lt xs)).trans (ih.cons x)

theorem mem_sortBy {lt : α → α → Bool} {x : α} {l : List α} :
    x ∈ sortBy lt l ↔ x ∈ l :=
  (sortBy_perm lt l).mem_iff

/-! ## Lemmas: per-thread collapse -/

theorem betterRow_cases (dist : List Rat → List Rat → Rat) (qv : List Rat) (a b : Row) :
    betterRow dist qv a b = a ∨ betterRow dist qv a b = b := by
  unfold betterRow
  split
  · right; rfl
  · left; rfl

theorem sim_le_betterRow_left (dist : List Rat → List Rat → Rat) (qv : List Rat) (a b : Row) :
    similarity dist qv a ≤ similarity dist qv (betterRow dist qv a b) := by
  unfold betterRow
  split
  · exact le_of_lt (by assumption)
  · exact le_refl _

theorem sim_le_betterRow_right (dist : List Rat → List Rat → Rat) (qv : List Rat) (a b : Row) :
    similarity dist qv b ≤ similarity dist qv (betterRow dist qv a b) := by
  unfold betterRow
  split
  · exact le_refl _
  · exact le_of_not_lt (by assumption)

theorem bestRow_cons (dist : List Rat → List Rat → Rat) (qv : List Rat) (r x : Row)
    (l : List Row) :
    bestRow dist qv r (x :: l) = bestRow dist qv (betterRow dist qv r x) l := rfl

theorem bestRow_mem (dist : List Rat → List Rat → Rat) (qv : List Rat) (r : Row)
    (l : List Row) : bestRow dist qv r l ∈ r :: l := by
  induction l generalizing r with
  | nil => exact List.mem_cons_self _ _
  | cons x xs ih =>
      rw [bestRow_cons]
      have h := ih (betterRow dist qv r x)
      rcases List.mem_cons.mp h with h1 | h1
      · rcases betterRow_cases dist qv r x with h2 | h2
        · rw [h1, h2]; exact List.mem_cons_self _ _
        · rw [h1, h2]
          exact List.mem_cons_of_mem _ (List.mem_cons_self _ _)
      · exact List.mem_cons_of_mem _ (List.mem_cons_of_mem _ h1)

theorem sim_le_bestRow (dist : List Rat → List Rat → Rat) (qv : List Rat) (r : Row)
    (l : List Row) : ∀ x ∈ r :: l, similarity dist qv x ≤ similarity dist qv (bestRow dist qv r l) := by
  induction l generalizing r with
  | nil =>
      intro x hx
      rcases List.mem_cons.mp hx with h | h
      · rw [h]; exact le_refl _
      · exact absurd h (List.not_mem_nil x)
  | cons y ys ih =>
      intro x hx
      rw [bestRow_cons]
      have hhead := ih (betterRow dist qv r y) (betterRow dist qv r y) (List.mem_cons_self _ _)
      rcases List.mem_cons.mp hx with h | h
      · rw [h]
        exact le_trans (sim_le_betterRow_left dist qv r y) hhead
      · rcases List.mem_cons.mp h with h2 | h2
        · rw [h2]
          exact le_trans (sim_le_betterRow_right dist qv r y) hhead
        · exact ih (betterRow dist qv r y) x (List.mem_cons_of_mem _ h2)

theorem bestRowForThread_mem {dist : List Rat → List Rat → Rat} {qv : List Rat}
    {t : String} {l : List Row} {x : Row} (h : bestRowForThread dist qv t l = some x) :
    x ∈ l ∧ x.thread_ts = t := by
  unfold bestRowForThread at h
  split at h
  · exact absurd h (by simp)
  case h_2 r rs heq =>
    injection h with h
    have hmem : bestRow dist qv r rs ∈ r :: rs := bestRow_mem dist qv r rs
    rw [← heq] at hmem
    have h2 := List.mem_filter.mp hmem
    subst h
    exact ⟨h2.1, by simpa using h2.2⟩

theorem bestRowForThread_max {dist : List Rat → List Rat → Rat} {qv : List Rat}
    {t : String} {l : List Row} {x : Row} (h : bestRowForThread dist qv t l = some x)
    (r' : Row) (hr' : r' ∈ l) (ht : r'.thread_ts = t) :
    similarity dist qv r' ≤ similarity dist qv x := by
  unfold bestRowForThread at h
  split at h
  · exact absurd h (by simp)
  case h_2 r rs heq =>
    injection h with h
    have hmem : r' ∈ l.filter (fun rr => rr.thread_ts == t) :=
      List.mem_filter.mpr ⟨hr', by simp [ht]⟩
    rw [heq] at hmem
    rw [← h]
    exact sim_le_bestRow dist qv r rs r' hmem

theorem collapseByThread_mem {dist : List Rat → List Rat → Rat} {qv : List Rat}
    {l : List Row} {x : Row} (h : x ∈ collapseByThread dist qv l) : x ∈ l := by
  unfold collapseByThread at h
  obtain ⟨t, _, hsome⟩ := List.mem_filterMap.mp h
  exact (bestRowForThread_mem hsome).1

theorem collapseByThread_max {dist : List Rat → List Rat → Rat} {qv : List Rat}
    {l : List Row} {x : Row} (h : x ∈ collapseByThread dist qv l)
    (r' : Row) (hr' : r' ∈ l) (ht : r'.thread_ts = x.thread_ts) :
    similarity dist qv r' ≤ similarity dist qv x := by
  unfold collapseByThread at h
  obtain ⟨t, _, hsome⟩ := List.mem_filterMap.mp h
  exact bestRowForThread_max hsome r' hr' (by rw [ht, (bestRowForThread_mem hsome).2])

theorem threadKeys_pairwise (l : List Row) :
    (threadKeys l).Pairwise (fun a b => a ≠ b) := by
  induction l with
  | nil => exact List.Pairwise.nil
  | cons r rs ih =>
      rw [threadKeys]
      refine List.Pairwise.cons ?_ ?_
      · intro t ht
        have h2 := List.mem_filter.mp ht
        exact (bne_iff_ne.mp h2.2).symm
      · exact List.Pairwise.sublist (List.filter_sublist _) ih

theorem pairwise_filterMap_of {R : α → α → Prop} (f : β → Option α) :
    ∀ {l : List β},
      l.Pairwise (fun a b => ∀ x, f a = some x → ∀ y, f b = some y → R x y) →
        (l.filterMap f).Pairwise R := by
  intro l
  induction l with
  | nil => intro _; simp
  | cons b bs ih =>
      intro h
      rcases List.pairwise_cons.mp h with ⟨hhead, htail⟩
      cases hfb : f b with
      | none => simpa [List.filterMap_cons, hfb] using ih htail
      | some x =>
          rw [List.filterMap_cons, hfb]
          refine List.Pairwise.cons ?_ (ih htail)
          intro y hy
          obtain ⟨c, hc, hcy⟩ := List.mem_filterMap.mp hy
          exact hhead c hc x hfb y hcy

theorem collapseByThread_pairwise (dist : List Rat → List Rat → Rat) (qv : List Rat)
    (l : List Row) :
    (collapseByThread dist qv l).Pairwise (fun a b => a.thread_ts ≠ b.thread_ts) := by
  unfold collapseByThread
  apply pairwise_filterMap_of
  refine (threadKeys_pairwise l).imp ?_
  intro a b hab x hx y hy
  rw [(bestRowForThread_mem hx).2, (bestRowForThread_mem hy).2]
  exact hab

theorem mem_eligibleRows {embedFn : String → List Rat} {dist : List Rat → List Rat → Rat}
    {table : List Row} {queryText : String} {minSim : Rat} {filters : Filters} {r : Row}
    (h : r ∈ eligibleRows embedFn dist table queryText minSim filters) :
    r ∈ table ∧ matchesFilters filters r = true ∧
      minSim < similarity dist (generateEmbedding embedFn queryText) r := by
  unfold eligibleRows at h
  have h2 := List.mem_filter.mp h
  have h3 := h2.2
  unfold eligibleB at h3
  rw [Bool.and_eq_true] at h3
  exact ⟨h2.1, h3.1, of_decide_eq_true h3.2⟩

/-! ## Claim theorems: similarity search -/

/-- C3: for every query, limit, minimum similarity and filters, the result
sequence of `searchSimilarMessages` contains at most one row per distinct
`thread_ts` (pairwise distinct thread ids), and every returned row is the
projection of an eligible row whose similarity is maximal among the eligible
rows of its thread. -/
theorem searchSimilarMessages_per_thread (embedFn : String → List Rat)
    (dist : List Rat → List Rat → Rat) (table : List Row) (queryText : String)
    (limit : Nat) (minSim : Rat) (filters : Filters) :
    (searchSimilarMessages embedFn dist table queryText limit minSim filters).Pairwise
        (fun a b => a.thread_ts ≠ b.thread_ts) ∧
      ∀ sr ∈ searchSimilarMessages embedFn dist table queryText limit minSim filters,
        ∃ r ∈ eligibleRows embedFn dist table queryText minSim filters,
          sr = projectRow dist (generateEmbedding embedFn queryText) r ∧
            ∀ r' ∈ eligibleRows embedFn dist table queryText minSim filters,
              r'.thread_ts = sr.thread_ts →
                similarity dist (generateEmbedding embedFn queryText) r' ≤ sr.similarity := by
  constructor
  · have hp := collapseByThread_pairwise dist (generateEmbedding embedFn queryText)
      (eligibleRows embedFn dist table queryText minSim filters)
    have hp2 := (List.Perm.pairwise_iff (fun h => Ne.symm h)
      (sortBy_perm (simLt dist (generateEmbedding embedFn queryText)) _)).mpr hp
    have hp3 := List.Pairwise.sublist (List.take_sublist limit _) hp2
    exact List.pairwise_map.mpr hp3
  · intro sr hsr
    unfold searchSimilarMessages at hsr
    obtain ⟨r, hr, hproj⟩ := List.mem_map.mp hsr
    have hr2 := List.take_subset _ _ hr
    have hr3 := mem_sortBy.mp hr2
    have hr4 := collapseByThread_mem hr3
    refine ⟨r, hr4, hproj.symm, ?_⟩
    intro r' hr' ht
    have ht2 : r'.thread_ts = r.thread_ts := by rw [ht, ← hproj]; rfl
    have hmax := collapseByThread_max hr3 r' hr' ht2
    rw [← hproj]
    exact hmax

/-- C4: `searchSimilarMessages` never returns a row whose similarity
(computed as `1 - dist(embedding, queryVector)`) is at or below
`minSimilarity`: every returned row's similarity is strictly greater. -/
theorem searchSimilarMessages_min_similarity (embedFn : String → List Rat)
    (dist : List Rat → List Rat → Rat) (table : List Row) (queryText : String)
    (limit : Nat) (minSim : Rat) (filters : Filters) (sr : SearchRow)
    (hsr : sr ∈ searchSimilarMessages embedFn dist table queryText limit minSim filters) :
    minSim < sr.similarity := by
  unfold searchSimilarMessages at hsr
  obtain ⟨r, hr, hproj⟩ := List.mem_map.mp hsr
  have hr2 := List.take_subset _ _ hr
  have hr3 := mem_sortBy.mp hr2
  have hr4 := collapseByThread_mem hr3
  have h5 := (mem_eligibleRows hr4).2.2
  rw [← hproj]
  exact h5

/-- Witness for C4 at a concrete store: the search over `[rowX, rowY]`
returns the projection of `rowX` (similarity 9/10), which indeed exceeds
the 7/10 threshold. -/
theorem searchSimilarMessages_min_similarity_witness :
    (7 / 10 : Rat) < (projectRow cDist [] rowX).similarity :=
  searchSimilarMessages_min_similarity cEmbed cDist [rowX, rowY] "q" 10 (7 / 10)
    emptyFilters (projectRow cDist [] rowX) (by with_unfolding_all decide)

/-! ## Lemmas: upsert row count -/

/-- A key triple is present in the table (the `SELECT id ... WHERE` lookup
of `storeMessage` finds a row). -/
def hasKey (table : List Row) (c t : String) (i : Nat) : Bool :=
  table.any (matchKey c t i)

theorem matchKey_updateRow (c' t' : String) (i' : Nat) (content : String)
    (u ti : Option String) (md : Metadata) (emb : List Rat) (d : Rat) (r : Row) :
    matchKey c' t' i' (updateRow content u ti md emb d r) = matchKey c' t' i' r := rfl

theorem any_map_eq {g : Row → Row} {p : Row → Bool} (hp : ∀ r, p (g r) = p r)
    (l : List Row) : (l.map g).any p = l.any p := by
  induction l with
  | nil => rfl
  | cons x xs ih => simp [List.any_cons, hp, ih]

theorem matchKey_store_update (c t : String) (i : Nat) (content : String)
    (u ti : Option String) (md : Metadata) (emb : List Rat) (d : Rat)
    (c' t' : String) (i' : Nat) (r : Row) :
    matchKey c' t' i'
        (if matchKey c t i r then updateRow content u ti md emb d r else r)
      = matchKey c' t' i' r := by
  by_cases hr : matchKey c t i r = true
  · rw [if_pos hr, matchKey_updateRow]
  · rw [if_neg hr]

theorem storeMessage_length_of_hasKey {table : List Row} {c t : String} {i : Nat}
    (embedFn : String → List Rat) (now : Rat) (content : String)
    (u ti : Option String) (md : Metadata) (ts : Option Rat)
    (h : hasKey table c t i = true) :
    (storeMessage embedFn now table c t content u ti i md ts).length = table.length := by
  unfold hasKey at h
  simp only [storeMessage]
  rw [if_pos h, List.length_map]

theorem storeMessage_length_of_not_hasKey {table : List Row} {c t : String} {i : Nat}
    (embedFn : String → List Rat) (now : Rat) (content : String)
    (u ti : Option String) (md : Metadata) (ts : Option Rat)
    (h : hasKey table c t i = false) :
    (storeMessage embedFn now table c t content u ti i md ts).length = table.length + 1 := by
  unfold hasKey at h
  simp only [storeMessage]
  rw [if_neg (by simp [h]), List.length_append]
  rfl

theorem storeMessage_hasKey_mono {table : List Row} {c' t' : String} {i' : Nat}
    (embedFn : String → List Rat) (now : Rat) (c t content : String)
    (u ti : Option String) (i : Nat) (md : Metadata) (ts : Option Rat)
    (h : hasKey table c' t' i' = true) :
    hasKey (storeMessage embedFn now table c t content u ti i md ts) c' t' i' = true := by
  unfold hasKey at h ⊢
  simp only [storeMessage]
  by_cases hk : table.any (matchKey c t i) = true
  · rw [if_pos hk, any_map_eq (matchKey_store_update c t i content u ti _ _ _ c' t' i')]
    exact h
  · rw [if_neg hk, List.any_append, h]
    rfl

theorem storeMessage_hasKey_self (embedFn : String → List Rat) (now : Rat)
    (table : List Row) (c t content : String) (u ti : Option String) (i : Nat)
    (md : Metadata) (ts : Option Rat) :
    hasKey (storeMessage embedFn now table c t content u ti i md ts) c t i = true := by
  unfold hasKey
  simp only [storeMessage]
  by_cases hk : table.any (matchKey c t i) = true
  · rw [if_pos hk, any_map_eq (matchKey_store_update c t i content u ti _ _ _ c t i)]
    exact hk
  · rw [if_neg hk, List.any_append]
    simp [matchKey]

theorem foldl_store_hasKey_mono (embedFn : String → List Rat) (now : Rat)
    (c t : String) (u ti : Option String) (ts : Option Rat) (chunks : List String)
    (c' t' : String) (i' : Nat) (l : List String) :
    ∀ (table : List Row), hasKey table c' t' i' = true →
      hasKey (l.foldl (storeChunkStep embedFn now c t u ti ts chunks) table) c' t' i'
        = true := by
  induction l with
  | nil => intro table h; exact h
  | cons x xs ih =>
      intro table h
      rw [List.foldl_cons]
      refine ih _ ?_
      unfold storeChunkStep
      exact storeMessage_hasKey_mono embedFn now c t x u ti _ _ ts h

theorem foldl_store_adds (embedFn : String → List Rat) (now : Rat)
    (c t : String) (u ti : Option String) (ts : Option Rat) (chunks : List String)
    (l : List String) :
    ∀ (table : List Row) (x : String), x ∈ l →
      hasKey (l.foldl (storeChunkStep embedFn now c t u ti ts chunks) table) c t
        (chunks.indexOf x) = true := by
  induction l with
  | nil => intro table x hx; exact absurd hx (List.not_mem_nil x)
  | cons y ys ih =>
      intro table x hx
      rw [List.foldl_cons]
      rcases List.mem_cons.mp hx with h | h
      · subst h
        apply foldl_store_hasKey_mono
        unfold storeChunkStep
        exact storeMessage_hasKey_self embedFn now table c t x u ti _ _ ts
      · exact ih _ x h

theorem foldl_store_length (embedFn : String → List Rat) (now : Rat)
    (c t : String) (u ti : Option String) (ts : Option Rat) (chunks : List String)
    (l : List String) :
    ∀ (table : List Row),
      (∀ x ∈ l, hasKey table c t (chunks.indexOf x) = true) →
        (l.foldl (storeChunkStep embedFn now c t u ti ts chunks) table).length
          = table.length := by
  induction l with
  | nil => intro table _; rfl
  | cons y ys ih =>
      intro table hall
      rw [List.foldl_cons]
      have hy := hall y (List.mem_cons_self y ys)
      have hstep : (storeChunkStep embedFn now c t u ti ts chunks table y).length
          = table.length := by
        unfold storeChunkStep
        exact storeMessage_length_of_hasKey embedFn now y u ti _ ts hy
      rw [ih _ ?_, hstep]
      intro x hx
      unfold storeChunkStep
      exact storeMessage_hasKey_mono embedFn now c t y u ti _ _ ts
        (hall x (List.mem_cons_of_mem y hx))

/-- C5: re-running `chunkAndStoreMessage` with identical arguments leaves
the row count unchanged — the second run re-finds every
`(channel, thread, chunkIndex)` key written by the first run and takes the
`UPDATE` path for each chunk, inserting nothing. -/
theorem chunkAndStoreMessage_idempotent_row_count (embedFn : String → List Rat)
    (now : Rat) (table : List Row) (c t : String) (content : Option String)
    (u ti : Option String) (ts : Option Rat) :
    (chunkAndStoreMessage embedFn now
        (chunkAndStoreMessage embedFn now table c t content u ti ts)
        c t content u ti ts).length
      = (chunkAndStoreMessage embedFn now table c t content u ti ts).length := by
  unfold chunkAndStoreMessage
  apply foldl_store_length
  intro x hx
  exact foldl_store_adds embedFn now c t u ti ts _ _ table x hx

/-! ## Lemmas: context assembly -/

/-- Concatenation of the formatted lines, in order (`context += line`). -/
def concatLines (l : List String) : String := l.foldr (fun a b => a ++ b) ""

theorem concatLines_nil : concatLines [] = "" := rfl

theorem concatLines_cons (a : String) (l : List String) :
    concatLines (a :: l) = a ++ concatLines l := rfl

theorem includedLoop_token_bound (pn : String → String) (maxT : Nat) :
    ∀ (l : List SearchRow) (cur : Nat), cur ≤ maxT →
      cur + ((includedLoop pn maxT l cur).map
          (fun m => estimateTokens (pn m.content))).sum ≤ maxT := by
  intro l
  induction l with
  | nil => intro cur h; simpa using h
  | cons m rest ih =>
      intro cur h
      simp only [includedLoop]
      by_cases hc : maxT < cur + estimateTokens (pn m.content)
      · rw [if_pos hc]
        simpa using h
      · rw [if_neg hc]
        have h2 := ih (cur + estimateTokens (pn m.content)) (le_of_not_lt hc)
        simp only [List.map_cons, List.sum_cons]
        omega

theorem contextLoop_eq_included (pn : String → String) (now : Rat) (base : String)
    (maxT : Nat) :
    ∀ (l : List SearchRow) (cur : Nat) (ctx : String),
      contextLoop pn now base maxT l cur ctx
        = ctx ++ concatLines ((includedLoop pn maxT l cur).map
            (fun m => formatMessage now base m (pn m.content))) := by
  intro l
  induction l with
  | nil =>
      intro cur ctx
      simp only [contextLoop, includedLoop, List.map_nil, concatLines_nil]
      exact (String.append_empty ctx).symm
  | cons m rest ih =>
      intro cur ctx
      simp only [contextLoop, includedLoop]
      by_cases hc : maxT < cur + estimateTokens (pn m.content)
      · rw [if_pos hc, if_pos hc, List.map_nil, concatLines_nil]
        exact (String.append_empty ctx).symm
      · rw [if_neg hc, if_neg hc, ih, List.map_cons, concatLines_cons,
          String.append_assoc]

/-! ## Claim theorems: storage -/

/-- C6 (bug demonstration): on the document `c6Text`, which splits into
`N = 3` chunks of which the last two are the identical string, the store
after `chunkAndStoreMessage` holds chunk indices `[0, 1]` only — index 2 is
never written, because `chunks.indexOf(chunk)` resolves both duplicate
chunks to index 1 — even though every row's `metadata.total_chunks`
records 3. -/
theorem chunkAndStoreMessage_duplicate_chunk_index :
    (splitIntoChunks (some c6Text) 1000).length = 3 ∧
      (chunkAndStoreMessage cEmbed 0 [] "c" "t" (some c6Text) none none none).map
          Row.chunk_index = [0, 1] ∧
      ∀ r ∈ chunkAndStoreMessage cEmbed 0 [] "c" "t" (some c6Text) none none none,
        r.metadata.total_chunks = 3 := by
  refine ⟨by rw [splitIntoChunks_c6Text]; rfl, ?_, ?_⟩
  · rw [chunkAndStoreMessage_c6_table]
    rfl
  · rw [chunkAndStoreMessage_c6_table]
    intro r hr
    rcases List.mem_cons.mp hr with h | h
    · rw [h]
    · rcases List.mem_cons.mp h with h2 | h2
      · rw [h2]
      · exact absurd h2 (List.not_mem_nil r)

/-- C7: a `null`/`undefined` or empty `fullText` performs zero writes and
does not fail: `splitIntoChunks` returns `[]`, so the loop body never runs
and the store is returned unchanged. -/
theorem chunkAndStoreMessage_empty_input_no_writes (embedFn : String → List Rat)
    (now : Rat) (table : List Row) (c t : String) (u ti : Option String)
    (ts : Option Rat) :
    chunkAndStoreMessage embedFn now table c t none u ti ts = table ∧
      chunkAndStoreMessage embedFn now table c t (some "") u ti ts = table :=
  ⟨rfl, rfl⟩

/-! ## Claim theorems: context assembly -/

/-- C1 (bug demonstration): with two eligible rows — `rowX` (thread "1.1",
`created_at = 0`, similarity 9/10) and `rowY` (thread "2.2",
`created_at = 100`, similarity 8/10) — `getRelevantContext` includes the
older `rowX` *before* the newer `rowY`: the rows returned by
`searchSimilarMessages` carry no `created_at` column, so the recency
comparator compares `undefined` timestamps (`NaN`, treated as 0 by
`Array.prototype.sort`) and the similarity order survives. -/
theorem getRelevantContext_ignores_recency :
    (includedMessages cEmbed cDist id [rowX, rowY] "q" 4000).map SearchRow.content
        = ["x", "y"] ∧ rowX.created_at < rowY.created_at := by
  constructor
  · with_unfolding_all decide
  · with_unfolding_all decide

/-- C2 counterexample: with the single tiny row `rowX` (content "x", one
estimated token) and `maxTokens = 1`, the message is included, but the
returned string also carries the provenance formatting ("Message from
alice (dev) NaN days ago: ...\nLink: ..."), whose estimated token count
far exceeds the budget of 1. -/
theorem getRelevantContext_token_budget_counterexample :
    ¬ estimateTokens
        (getRelevantContext cEmbed cDist id 0 "https://slack.example" [rowX] "q" 1) ≤ 1 := by
  with_unfolding_all decide

/-- C2 (amended): the token budget of `getRelevantContext` bounds the sum
of the estimated token counts of the included message *contents* (after
Notion-link expansion) — that sum never exceeds `maxTokens` — and the
returned string is the concatenation of the included messages' formatted
lines, whose provenance annotations are not counted against the budget. -/
theorem getRelevantContext_content_token_budget (embedFn : String → List Rat)
    (dist : List Rat → List Rat → Rat) (pn : String → String) (now : Rat)
    (base : String) (table : List Row) (query : String) (maxTokens : Nat) :
    ((includedMessages embedFn dist pn table query maxTokens).map
        (fun m => estimateTokens (pn m.content))).sum ≤ maxTokens ∧
      getRelevantContext embedFn dist pn now base table query maxTokens
        = concatLines ((includedMessages embedFn dist pn table query maxTokens).map
            (fun m => formatMessage now base m (pn m.content))) := by
  constructor
  · have h := includedLoop_token_bound pn maxTokens
      (sortBy recencyLt
        (searchSimilarMessages embedFn dist table query 10 (7 / 10) emptyFilters))
      0 (Nat.zero_le _)
    unfold includedMessages
    simpa using h
  · unfold getRelevantContext includedMessages
    rw [contextLoop_eq_included]
    exact String.empty_append _

/-! ## Lemmas: chunker token bound -/

theorem length_dropWhile_le (p : α → Bool) (l : List α) :
    (l.dropWhile p).length ≤ l.length := by
  induction l with
  | nil => simp
  | cons x xs ih =>
      rw [List.dropWhile_cons]
      split
      · exact le_trans ih (by simp)
      · exact le_refl _

theorem jsTrim_length_le (s : String) : (jsTrim s).length ≤ s.length := by
  rw [jsTrim, String.length_mk, List.length_reverse]
  calc ((s.data.dropWhile Char.isWhitespace).reverse.dropWhile Char.isWhitespace).length
      ≤ (s.data.dropWhile Char.isWhitespace).reverse.length :=
        length_dropWhile_le _ _
    _ = (s.data.dropWhile Char.isWhitespace).length := List.length_reverse _
    _ ≤ s.data.length := length_dropWhile_le _ _
    _ = s.length := rfl

theorem estimateTokens_jsTrim_le (s : String) :
    estimateTokens (jsTrim s) ≤ estimateTokens s :=
  Nat.div_le_div_right (Nat.add_le_add_right (jsTrim_length_le s) 3)

theorem le_maxSentenceTokens {s : String} :
    ∀ {l : List String}, s ∈ l → estimateTokens s ≤ maxSentenceTokens l := by
  intro l
  induction l with
  | nil => intro h; exact absurd h (List.not_mem_nil s)
  | cons x xs ih =>
      intro h
      have hfold : maxSentenceTokens (x :: xs)
          = max (estimateTokens x) (maxSentenceTokens xs) := rfl
      rcases List.mem_cons.mp h with h2 | h2
      · rw [h2, hfold]
        exact le_max_left _ _
      · rw [hfold]
        exact le_trans (ih h2) (le_max_right _ _)

theorem chunkFold_invariant (maxT M : Nat) :
    ∀ (l : List String) (st : List String × String),
      (∀ s ∈ l, estimateTokens s ≤ M) →
      (∀ c ∈ st.1, estimateTokens c ≤ maxT + M + 1) →
      (st.2.length ≤ 4 * maxT + 2 ∨ estimateTokens st.2 ≤ M) →
      (∀ c ∈ (l.foldl (chunkStep maxT) st).1, estimateTokens c ≤ maxT + M + 1) ∧
        ((l.foldl (chunkStep maxT) st).2.length ≤ 4 * maxT + 2 ∨
          estimateTokens (l.foldl (chunkStep maxT) st).2 ≤ M) := by
  intro l
  induction l with
  | nil => intro st _ hc hP; exact ⟨hc, hP⟩
  | cons s rest ih =>
      intro st hl hc hP
      rw [List.foldl_cons]
      refine ih (chunkStep maxT st s) (fun x hx => hl x (List.mem_cons_of_mem _ hx)) ?_ ?_
      · unfold chunkStep
        by_cases hcond : maxT < estimateTokens (st.2 ++ s)
        · rw [if_pos hcond]
          intro c hcmem
          rcases List.mem_append.mp hcmem with h | h
          · exact hc c h
          · have hceq : c = jsTrim st.2 := by simpa using h
            subst hceq
            have h1 := estimateTokens_jsTrim_le st.2
            rcases hP with hlen | hM
            · have h2 : estimateTokens st.2 ≤ maxT + 1 := by
                rw [estimateTokens_def]
                omega
              omega
            · omega
        · rw [if_neg hcond]
          exact hc
      · unfold chunkStep
        by_cases hcond : maxT < estimateTokens (st.2 ++ s)
        · rw [if_pos hcond]
          exact Or.inr (hl s (List.mem_cons_self s rest))
        · rw [if_neg hcond]
          refine Or.inl ?_
          have h2 : estimateTokens (st.2 ++ s) ≤ maxT := le_of_not_lt hcond
          rw [estimateTokens_def, String.length_append] at h2
          show (st.2 ++ s ++ ". ").length ≤ 4 * maxT + 2
          rw [String.length_append, String.length_append]
          have h3 : (". " : String).length = 2 := rfl
          omega

/-! ## Claim theorems: chunker -/

/-- C8 counterexample: at `text = ".."` and `maxTokensPerChunk = 0` each
sentence is empty (0 estimated tokens), yet the produced chunk `"."` —
assembled from the `". "` separators the loop appends — has 1 estimated
token, exceeding `maxTokensPerChunk` plus any sentence's token count. -/
theorem splitIntoChunks_overrun_counterexample :
    splitIntoChunks (some "..") 0 = ["."] ∧
      ¬ estimateTokens "." ≤ 0 + maxSentenceTokens (splitSentences "..") := by
  decide

/-- C8 (amended): every chunk emitted by `splitIntoChunks` has an estimated
token count of at most `maxTokensPerChunk` plus one sentence's estimated
tokens plus 1 — the extra token pays for the `". "` separator re-appended
after each absorbed sentence, which the budget check does not cover. -/
theorem splitIntoChunks_token_overrun_bound (t : String) (maxTokens : Nat)
    (chunk : String) (h : chunk ∈ splitIntoChunks (some t) maxTokens) :
    estimateTokens chunk ≤ maxTokens + maxSentenceTokens (splitSentences t) + 1 := by
  rw [splitIntoChunks_some] at h
  by_cases he : t.isEmpty = true
  · rw [if_pos he] at h
    exact absurd h (List.not_mem_nil _)
  · rw [if_neg he] at h
    have hinv := chunkFold_invariant maxTokens (maxSentenceTokens (splitSentences t))
      (splitSentences t) ([], "") (fun s hs => le_maxSentenceTokens hs)
      (fun c hcm => absurd hcm (List.not_mem_nil c))
      (Or.inl (by rw [show ("" : String).length = 0 from rfl]; omega))
    by_cases hcc :
        ((splitSentences t).foldl (chunkStep maxTokens) ([], "")).2.isEmpty = true
    · rw [if_pos hcc] at h
      exact hinv.1 chunk h
    · rw [if_neg hcc] at h
      rcases List.mem_append.mp h with h2 | h2
      · exact hinv.1 chunk h2
      · have hceq : chunk
            = jsTrim ((splitSentences t).foldl (chunkStep maxTokens) ([], "")).2 := by
          simpa using h2
        subst hceq
        have h1 := estimateTokens_jsTrim_le
          ((splitSentences t).foldl (chunkStep maxTokens) ([], "")).2
        rcases hinv.2 with hlen | hM
        · have h2 : estimateTokens
              ((splitSentences t).foldl (chunkStep maxTokens) ([], "")).2
                ≤ maxTokens + 1 := by
            rw [estimateTokens_def]
            omega
          omega
        · omega

/-- Witness for C8 (amended) at `text = ".."`, `maxTokensPerChunk = 0`:
the chunk `"."` is produced and satisfies the corrected bound `0 + 0 + 1`. -/
theorem splitIntoChunks_token_overrun_bound_witness :
    ("." ∈ splitIntoChunks (some "..") 0) ∧
      estimateTokens "." ≤ 0 + maxSentenceTokens (splitSentences "..") + 1 :=
  ⟨by decide, splitIntoChunks_token_overrun_bound ".." 0 "." (by decide)⟩

/-- C9 counterexample: `splitIntoChunks("A. B. C.", 1)` does *not* yield
three chunks. -/
theorem splitIntoChunks_abc_counterexample :
    (splitIntoChunks (some "A. B. C.") 1).length ≠ 3 := by decide

/-- C9 (amended): `splitIntoChunks("A. B. C.", 1)` yields the two chunks
`"A."` and `"B C."`, in original order: the code's character-based
estimator charges the merged buffer `" B C"` only one token (4 characters),
so sentences B and C fuse into one chunk instead of splitting. -/
theorem splitIntoChunks_abc_two_chunks :
    splitIntoChunks (some "A. B. C.") 1 = ["A.", "B C."] := by decide

/-- C10: for some non-empty text and positive token budget the chunk list
contains an empty-string chunk: a first sentence that alone exceeds the
budget flushes the still-empty buffer as a chunk. -/
theorem splitIntoChunks_emits_empty_chunk :
    ∃ (t : String) (maxTokens : Nat), t ≠ "" ∧ 0 < maxTokens ∧
      "" ∈ splitIntoChunks (some t) maxTokens :=
  ⟨"aaaaa", 1, by decide, by decide, by decide⟩

/-! ## Supporting theorems: what the recency re-rank actually does

These are not claim theorems; they document, for *all* inputs, the
mechanism behind the C1 divergence: every row returned by
`searchSimilarMessages` has no `created_at`, the recency comparator is
therefore constantly a tie, and the stable sort returns the similarity
order unchanged. -/

theorem searchSimilarMessages_created_at_none (embedFn : String → List Rat)
    (dist : List Rat → List Rat → Rat) (table : List Row) (queryText : String)
    (limit : Nat) (minSim : Rat) (filters : Filters) (sr : SearchRow)
    (hsr : sr ∈ searchSimilarMessages embedFn dist table queryText limit minSim filters) :
    sr.created_at = none := by
  unfold searchSimilarMessages at hsr
  obtain ⟨r, _, hproj⟩ := List.mem_map.mp hsr
  rw [← hproj]
  rfl

theorem recencyLt_false_of_created_at_none {a b : SearchRow}
    (ha : a.created_at = none) : recencyLt a b = false := by
  unfold recencyLt
  rw [ha]

theorem sortBy_recencyLt_id :
    ∀ (l : List SearchRow), (∀ a ∈ l, a.created_at = none) → sortBy recencyLt l = l := by
  intro l
  induction l with
  | nil => intro _; rfl
  | cons x xs ih =>
      intro h
      rw [sortBy, ih (fun a ha => h a (List.mem_cons_of_mem x ha))]
      cases xs with
      | nil => rfl
      | cons y ys =>
          rw [insertBy, recencyLt_false_of_created_at_none (h y (by simp))]
          simp

/-- For every store and query, the "sort by recency" line of
`getRelevantContext` leaves the search results untouched, so the assembly
walks them in similarity order. -/
theorem getRelevantContext_recency_sort_is_noop (embedFn : String → List Rat)
    (dist : List Rat → List Rat → Rat) (table : List Row) (queryText : String)
    (limit : Nat) (minSim : Rat) (filters : Filters) :
    sortBy recencyLt (searchSimilarMessages embedFn dist table queryText limit minSim filters)
      = searchSimilarMessages embedFn dist table queryText limit minSim filters :=
  sortBy_recencyLt_id _
    (fun sr hsr =>
      searchSimilarMessages_created_at_none embedFn dist table queryText limit minSim
        filters sr hsr)

theorem insertBy_pairwise (lt : α → α → Bool)
    (htrans : ∀ a b c, lt b a = false → lt c b = false → lt c a = false)
    (hasymm : ∀ a b, lt a b = true → lt b a = false) (m : α) :
    ∀ (l : List α), l.Pairwise (fun a b => lt b a = false) →
      (insertBy lt m l).Pairwise (fun a b => lt b a = false) := by
  intro l
  induction l with
  | nil => intro _; simp [insertBy]
  | cons x xs ih =>
      intro hp
      rcases List.pairwise_cons.mp hp with ⟨hx, hxs⟩
      rw [insertBy]
      by_cases hc : lt x m = true
      · rw [if_pos hc]
        refine List.pairwise_cons.mpr ⟨?_, ih hxs⟩
        intro b hb
        rcases List.mem_cons.mp ((insertBy_perm lt m xs).mem_iff.mp hb) with h | h
        · rw [h]
          exact hasymm x m hc
        · exact hx b h
      · rw [if_neg hc]
        have hxm : lt x m = false := by
          cases hxm2 : lt x m
          · rfl
          · exact absurd hxm2 hc
        refine List.pairwise_cons.mpr ⟨?_, hp⟩
        intro b hb
        rcases List.mem_cons.mp hb with h | h
        · rw [h]
          exact hxm
        · exact htrans m x b hxm (hx b h)

theorem sortBy_pairwise (lt : α → α → Bool)
    (htrans : ∀ a b c, lt b a = false → lt c b = false → lt c a = false)
    (hasymm : ∀ a b, lt a b = true → lt b a = false) :
    ∀ (l : List α), (sortBy lt l).Pairwise (fun a b => lt b a = false) := by
  intro l
  induction l with
  | nil => simp [sortBy]
  | cons x xs ih =>
      rw [sortBy]
      exact insertBy_pairwise lt htrans hasymm x (sortBy lt xs) ih

/-- The result sequence of `searchSimilarMessages` is ordered by similarity
descending (`ORDER BY similarity DESC`). -/
theorem searchSimilarMessages_similarity_sorted (embedFn : String → List Rat)
    (dist : List Rat → List Rat → Rat) (table : List Row) (queryText : String)
    (limit : Nat) (minSim : Rat) (filters : Filters) :
    (searchSimilarMessages embedFn dist table queryText limit minSim filters).Pairwise
      (fun a b => b.similarity ≤ a.similarity) := by
  unfold searchSimilarMessages
  have hsorted := sortBy_pairwise (simLt dist (generateEmbedding embedFn queryText))
    (fun a b c hba hcb => by
      simp only [simLt, decide_eq_false_iff_not, not_lt] at hba hcb ⊢
      exact le_trans hcb hba)
    (fun a b hab => by
      simp only [simLt, decide_eq_true_eq, decide_eq_false_iff_not, not_lt] at hab ⊢
      exact le_of_lt hab)
    (collapseByThread dist (generateEmbedding embedFn queryText)
      (eligibleRows embedFn dist table queryText minSim filters))
  have htake := List.Pairwise.sublist (List.take_sublist limit _) hsorted
  refine List.pairwise_map.mpr (htake.imp ?_)
  intro a b hab
  simp only [simLt, decide_eq_false_iff_not, not_lt] at hab
  exact hab

theorem includedLoop_sublist (pn : String → String) (maxT : Nat) :
    ∀ (l : List SearchRow) (cur : Nat), (includedLoop pn maxT l cur).Sublist l := by
  intro l
  induction l with
  | nil => intro cur; simp [includedLoop]
  | cons m rest ih =>
      intro cur
      simp only [includedLoop]
      split
      · exact List.nil_sublist _
      · exact List.Sublist.cons₂ m (ih _)

/-- The messages included by `getRelevantContext` appear in non-increasing
*similarity* order — the order the code actually produces in place of the
recency order the spec describes. -/
theorem includedMessages_similarity_sorted (embedFn : String → List Rat)
    (dist : List Rat → List Rat → Rat) (pn : String → String) (table : List Row)
    (query : String) (maxTokens : Nat) :
    (includedMessages embedFn dist pn table query maxTokens).Pairwise
      (fun a b => b.similarity ≤ a.similarity) := by
  unfold includedMessages
  rw [getRelevantContext_recency_sort_is_noop]
  exact List.Pairwise.sublist (includedLoop_sublist pn maxTokens _ 0)
    (searchSimilarMessages_similarity_sorted embedFn dist table query 10 (7 / 10)
      emptyFilters)

end SlackDB
